import Mathlib

/-!
Verification of the nanoclaw task scheduler, IPC transport, plugin registry
and channel message splitting, as a shallow embedding of the TypeScript
sources.  JavaScript strings are modelled at the character level
(`String` / `List Char`); machine `number` values that the code only uses
as non-negative counters are modelled as `Nat`.
-/

/-! ## JavaScript string primitives -/

/-- Model of JavaScript `String.prototype.toLowerCase` (ASCII range; the
keyword patterns compared against are all ASCII). -/
def lowerStr (s : String) : String := String.mk (s.data.map Char.toLower)

/-- `needle` occurs as a contiguous run inside `hay`. -/
def charListInfix (needle : List Char) : List Char → Bool
  | [] => needle.isEmpty
  | c :: t => needle.isPrefixOf (c :: t) || charListInfix needle t

/-- Model of JavaScript `String.prototype.includes`. -/
def containsSub (s pat : String) : Bool := charListInfix pat.data s.data

/-- Characters treated as whitespace by JavaScript `trim`/`trimStart`. -/
def jsWhitespace (c : Char) : Bool :=
  c == ' ' || c == '\t' || c == '\n' || c == '\r' || c == '\x0b' || c == '\x0c'

/-- Model of JavaScript `String.prototype.trim`. -/
def jsTrim (s : String) : String :=
  String.mk (((s.data.dropWhile jsWhitespace).reverse.dropWhile jsWhitespace).reverse)

/-- Model of JavaScript `String.prototype.slice(0, n)` (for `n ≥ 0`). -/
def jsSliceTo (s : String) (n : Nat) : String := String.mk (s.data.take n)

/-! ## Task data model (`src/types.ts`, fields used by the scheduler) -/

inductive TaskStatus
  | active | paused | error | completed
deriving DecidableEq, Repr

inductive RunStatus
  | success | error
deriving DecidableEq, Repr

structure TaskRunLog where
  task_id : String
  run_at : String
  status : RunStatus
  result : Option String
  error : Option String
deriving DecidableEq, Repr

structure ScheduledTask where
  id : String
  group_folder : String
  chat_jid : String
  prompt : String
  status : TaskStatus
  retry_count : Nat
  max_retries : Nat
  last_error : Option String
deriving DecidableEq, Repr

/-! ## `src/task-diagnostics.ts` -/

inductive DiagPattern
  | persistent | timeout | orphaned | rateLimited | transient | unknown
deriving DecidableEq, Repr

inductive DiagRecommendation
  | retry | pause | deactivate | notify | increaseTimeout
deriving DecidableEq, Repr

structure TaskDiagnosis where
  pattern : DiagPattern
  description : String
  recommendation : DiagRecommendation
  details : Option String
deriving DecidableEq, Repr

/-- `e.slice(0, 100).toLowerCase().trim()` — the prefix normalization used
by the persistent-failure check. -/
def normalizeErr (e : String) : String := jsTrim (lowerStr (jsSliceTo e 100))

/-- The runs the diagnoser counts as previous errors:
`recentRuns.filter((r) => r.status === 'error' && r.error).map((r) => r.error!)`
(JavaScript truthiness: a `null` or empty-string error is skipped). -/
def recentErrorsOf (recentRuns : List TaskRunLog) : List String :=
  recentRuns.filterMap (fun r =>
    match r.error with
    | some e => if r.status == RunStatus.error && e != "" then some e else none
    | none => none)

/-- The rate-limit / timeout / persistent / transient / unknown part of
`diagnoseTaskFailure` (everything after the orphaned check falls through to
this code). -/
def diagnoseRest (recentRuns : List TaskRunLog) (currentError : String) : TaskDiagnosis :=
  let lowerError := lowerStr currentError
  if containsSub lowerError "rate limit" || containsSub lowerError "429" ||
     containsSub lowerError "too many requests" || containsSub lowerError "api error" then
    { pattern := .rateLimited, description := "API Rate-Limit erreicht",
      recommendation := .retry, details := some currentError }
  else if containsSub lowerError "timeout" || containsSub lowerError "timed out" ||
          containsSub lowerError "idle timeout" then
    { pattern := .timeout, description := "Container-Timeout überschritten",
      recommendation := .increaseTimeout, details := some currentError }
  else
    let recentErrors := recentErrorsOf recentRuns
    if 2 ≤ recentErrors.length then
      let currentNorm := normalizeErr currentError
      let sameErrorCount :=
        (recentErrors.filter (fun e => normalizeErr e == currentNorm)).length
      if 2 ≤ sameErrorCount then
        { pattern := .persistent,
          description := "Persistenter Fehler (" ++ toString (sameErrorCount + 1) ++ "x wiederholt)",
          recommendation := .pause, details := some currentError }
      else
        { pattern := .transient,
          description := "Unterschiedliche Fehler — möglicherweise vorübergehend",
          recommendation := .retry, details := some currentError }
    else
      { pattern := .unknown, description := "Unbekannter Fehler",
        recommendation := .retry, details := some currentError }

/-- `diagnoseTaskFailure` from `src/task-diagnostics.ts`.  The orphaned
check is a nested `if`: the outer test may hold (plain "not found") while
the inner one fails, in which case control falls through to the remaining
checks. -/
def diagnoseTaskFailure (_task : ScheduledTask) (recentRuns : List TaskRunLog)
    (currentError : String) : TaskDiagnosis :=
  let lowerError := lowerStr currentError
  if containsSub lowerError "group not found" || containsSub lowerError "not found" then
    if containsSub lowerError "group not found" || containsSub lowerError "chat not found" then
      { pattern := .orphaned, description := "Gruppe oder Chat nicht mehr erreichbar",
        recommendation := .deactivate, details := some currentError }
    else diagnoseRest recentRuns currentError
  else diagnoseRest recentRuns currentError

/-- `RECOMMENDATION_LABELS` from `src/task-diagnostics.ts`. -/
def recommendationLabel : DiagRecommendation → String
  | .retry => "Erneut versuchen"
  | .pause => "Task pausieren"
  | .deactivate => "Task deaktivieren"
  | .notify => "Owner benachrichtigen"
  | .increaseTimeout => "Timeout erhöhen"

/-- `ACTION_LABELS[action] || action`. -/
def actionLabel (action : String) : String :=
  if action == "paused" then "pausiert"
  else if action == "completed" then "deaktiviert"
  else if action == "error" then "auf Fehler-Status gesetzt"
  else action

/-- `formatFailureNotification` from `src/task-diagnostics.ts`. -/
def formatFailureNotification (task : ScheduledTask) (diagnosis : TaskDiagnosis)
    (error : String) (action : String) : String :=
  let promptPreview :=
    if 60 < task.prompt.length then jsSliceTo task.prompt 57 ++ "..." else task.prompt
  String.intercalate "\n"
    [ "⚠️ Task \"" ++ promptPreview ++ "\" fehlgeschlagen",
      "",
      "Diagnose: " ++ diagnosis.description,
      "Empfehlung: " ++ recommendationLabel diagnosis.recommendation,
      "Fehler: " ++ error,
      "",
      "Task wurde " ++ actionLabel action ++ ". Nutze resume_task/schedule_task um fortzufahren." ]

/-! ## `src/task-scheduler.ts` -/

/-- Retry delays in milliseconds: 30s, 2min, 10min (`RETRY_DELAYS`). -/
def RETRY_DELAYS : List Nat := [30000, 120000, 600000]

/-- Modelled from the spec: `incrementTaskRetryCount` lives in `src/db.ts`,
which is not among the sources; the spec states that each failure
increments the persisted retry counter (reset to 0 on success) and the
scheduler uses the incremented value, so the call returns
`task.retry_count + 1`. -/
def incrementTaskRetryCount (task : ScheduledTask) : Nat := task.retry_count + 1

/-- `task.max_retries || 3` (JavaScript `||`: a zero/absent value falls
back to the default 3). -/
def maxRetriesOf (task : ScheduledTask) : Nat :=
  if task.max_retries = 0 then 3 else task.max_retries

/-- Observable effects of one `handleTaskFailure` call: the status written
by `updateTaskStatus` (if any), the `(jid, text)` notifications passed to
`deps.sendMessage`, and the delays of the retries scheduled via
`scheduleRetry`. -/
structure TaskFailureEffects where
  newStatus : Option TaskStatus
  notifications : List (String × String)
  retries : List Nat
deriving DecidableEq, Repr

/-- `handleTaskFailure` from `src/task-scheduler.ts`, as a function from
the task, the recent run logs (`getRecentTaskRuns(task.id, 10)`) and the
current error to its observable effects. -/
def handleTaskFailure (task : ScheduledTask) (recentRuns : List TaskRunLog)
    (error : String) : TaskFailureEffects :=
  let retryCount := incrementTaskRetryCount task
  let diagnosis := diagnoseTaskFailure task recentRuns error
  match diagnosis.pattern with
  | .orphaned =>
      { newStatus := some .completed,
        notifications := [(task.chat_jid, formatFailureNotification task diagnosis error "completed")],
        retries := [] }
  | .persistent =>
      { newStatus := some .paused,
        notifications := [(task.chat_jid, formatFailureNotification task diagnosis error "paused")],
        retries := [] }
  | .rateLimited =>
      if retryCount ≤ maxRetriesOf task then
        { newStatus := none, notifications := [],
          retries := [RETRY_DELAYS.getD (RETRY_DELAYS.length - 1) 0] }
      else
        { newStatus := some .error,
          notifications := [(task.chat_jid, formatFailureNotification task diagnosis error "error")],
          retries := [] }
  | _ =>
      if retryCount ≤ maxRetriesOf task then
        { newStatus := none, notifications := [],
          retries := [RETRY_DELAYS.getD (min (retryCount - 1) (RETRY_DELAYS.length - 1)) 0] }
      else
        { newStatus := some .error,
          notifications := [(task.chat_jid, formatFailureNotification task diagnosis error "error")],
          retries := [] }

/-- The delay picked for the `n`-th consecutive standard retry
(`RETRY_DELAYS[Math.min(retryCount - 1, RETRY_DELAYS.length - 1)]`). -/
def standardRetryDelay (n : Nat) : Nat :=
  RETRY_DELAYS.getD (min (n - 1) (RETRY_DELAYS.length - 1)) 0

/-- A run that the claim counts as a matching recent failure: status
`error`, with a (truthy) error equal to the current error under the
first-100-characters/lowercase/trim normalization. -/
def matchingErrorRun (err : String) (r : TaskRunLog) : Bool :=
  match r.error with
  | some e => r.status == RunStatus.error && e != "" && (normalizeErr e == normalizeErr err)
  | none => false

/-! ## Path model (`node:path` as used by the IPC transport) -/

/-- `pre` is a prefix of `s` (JavaScript `String.prototype.startsWith`). -/
def strStartsWith (s pre : String) : Bool := pre.data.isPrefixOf s.data

/-- `suf` is a suffix of `s` (JavaScript `String.prototype.endsWith`). -/
def strEndsWith (s suf : String) : Bool := suf.data.reverse.isPrefixOf s.data.reverse

/-- Split a path at `/` separators (each separator produces a boundary,
like `String.prototype.split('/')`). -/
def splitSegsAux : List Char → List Char → List String
  | [], acc => [String.mk acc.reverse]
  | c :: t, acc => if c = '/' then String.mk acc.reverse :: splitSegsAux t [] else splitSegsAux t (c :: acc)

def splitPath (p : String) : List String := splitSegsAux p.data []

/-- Resolution step of `path.resolve`/`path.normalize`: drop empty and `.`
segments, let `..` pop the previous segment (at the root it is a no-op). -/
def normalizeSegs (segs : List String) : List String :=
  segs.foldl
    (fun acc s =>
      if s = "" || s = "." then acc
      else if s = ".." then acc.dropLast
      else acc ++ [s]) []

/-- `path.resolve(p)` with working directory `cwd` (given as the already
resolved segments of an absolute directory), returned as segments. -/
def resolveSegs (cwd : List String) (p : String) : List String :=
  if strStartsWith p "/" then normalizeSegs (splitPath p)
  else normalizeSegs (cwd ++ splitPath p)

/-- Render resolved segments as the canonical absolute path string. -/
def pathToString : List String → String
  | [] => "/"
  | [s] => "/" ++ s
  | s :: rest => "/" ++ s ++ pathToString rest

/-- `path.join(dir, f)` for a flat filename `f`. -/
def joinPath (dir f : String) : String := if dir == "" then f else dir ++ "/" ++ f

/-- The generated IPC filenames (`<epochMillis>-<random6>.json`) are flat:
non-empty, not a dot segment, and without separators. -/
def flatName (f : String) : Bool :=
  f != "" && f != "." && f != ".." && !(f.data.contains '/')

def IPC_DIR : String := "/workspace/ipc"

/-- The containment test of the MCP server's `writeIpcFile`:
`resolvedDir.startsWith(IPC_DIR + path.sep) || resolvedDir === IPC_DIR`. -/
def ipcWriteAllowed (cwd : List String) (dir : String) : Bool :=
  let resolvedDir := pathToString (resolveSegs cwd dir)
  strStartsWith resolvedDir (IPC_DIR ++ "/") || resolvedDir == IPC_DIR

/-- `writeIpcFile` from the container MCP server: refuses a target
directory whose resolved absolute path escapes the IPC root, otherwise
atomically writes `<dir>/<filename>` (temp-file-then-rename; the model
returns the written path). -/
def writeIpcFile (cwd : List String) (dir : String) (filename : String) : Except String String :=
  if ipcWriteAllowed cwd dir then Except.ok (joinPath dir filename)
  else Except.error ("IPC write denied: path escapes IPC directory: " ++ dir)

namespace TasksPlugin

def TASKS_DIR : String := "/workspace/ipc/tasks"

/-- The tasks/groups container plugins carry their own `writeIpcFile`
without a containment check; every call site passes the constant
`TASKS_DIR` (or `MESSAGES_DIR`) under the IPC root. -/
def writeIpcFile (dir : String) (filename : String) : String := joinPath dir filename

end TasksPlugin

/-! ## IPC drain (`drainIpcInput` in the agent runner) -/

/-- Content of a dropped IPC file, as far as the drain loop inspects it:
a parsed `{type:"message", text}` object, some other well-formed JSON, or
a file `JSON.parse` rejects. -/
inductive IpcContent
  | message (text : String)
  | other
  | malformed
deriving DecidableEq, Repr

structure IpcFile where
  name : String
  content : IpcContent
deriving DecidableEq, Repr

/-- Lexicographic order on code points, the comparison of the default
JavaScript `Array.prototype.sort` applied to filenames. -/
def nameLtChars : List Char → List Char → Bool
  | [], [] => false
  | [], _ :: _ => true
  | _ :: _, [] => false
  | a :: as, b :: bs => if a < b then true else if b < a then false else nameLtChars as bs

def nameLe (a b : String) : Bool := !(nameLtChars b.data a.data)

def insertByName (f : IpcFile) : List IpcFile → List IpcFile
  | [] => [f]
  | g :: t => if nameLe f.name g.name then f :: g :: t else g :: insertByName f t

def sortByName : List IpcFile → List IpcFile
  | [] => []
  | f :: t => insertByName f (sortByName t)

/-- What one iteration of the drain loop contributes:
`if (data.type === 'message' && data.text) messages.push(data.text)` —
JavaScript truthiness drops an empty `text`. -/
def drainedText : IpcContent → Option String
  | .message t => if t == "" then none else some t
  | _ => none

/-- `drainIpcInput` from the agent runner: list the `.json` files of the
inbox, sort by name, parse each and unlink it (files that fail to parse
are unlinked and logged, and do not stop the loop), collecting the texts
of `{type:"message"}` payloads.  Returns the collected texts together
with the files left in the directory. -/
def drainIpcInput (files : List IpcFile) : List String × List IpcFile :=
  let jsonFiles := sortByName (files.filter (fun f => strEndsWith f.name ".json"))
  (jsonFiles.filterMap (fun f => drainedText f.content),
   files.filter (fun f => !(strEndsWith f.name ".json")))

/-- Names already in ascending filename order (epoch-prefixed filenames
written in sequence). -/
def namesSorted (files : List IpcFile) : Prop :=
  files.Pairwise (fun a b => nameLe a.name b.name = true)

/-! ## Plugin registry (`src/plugins/registry.ts`) -/

structure PluginEntry where
  name : String
  dependencies : List String
deriving DecidableEq, Repr

/-- `new Map(plugins.map((p) => [p.manifest.name, p])).get(name)`:
with duplicate names the later entry wins, hence the search over the
reversed list. -/
def byNameGet (ps : List PluginEntry) (n : String) : Option PluginEntry :=
  ps.reverse.find? (fun p => p.name == n)

structure SortState where
  visited : List String
  visiting : List String
  sorted : List PluginEntry
deriving Repr

def circularMsg (name : String) : String :=
  "Circular plugin dependency detected involving \"" ++ name ++ "\""

/-- The recursive `visit` of `topologicalSort`.  The JavaScript recursion
terminates because `visiting` grows along every nested call; the `fuel`
argument makes that measure explicit (`topologicalSort` passes enough fuel
that the limit is never hit, which is proved below). -/
def visit (ps : List PluginEntry) : Nat → SortState → String → Except String SortState
  | 0, _, _ => Except.error "plugin sort recursion limit"
  | fuel + 1, st, name =>
    if name ∈ st.visited then Except.ok st
    else if name ∈ st.visiting then Except.error (circularMsg name)
    else
      match byNameGet ps name with
      | none => Except.ok st
      | some entry =>
        match entry.dependencies.foldlM (fun s d => visit ps fuel s d)
                { st with visiting := name :: st.visiting } with
        | Except.error e => Except.error e
        | Except.ok st' =>
            Except.ok { visited := name :: st'.visited,
                        visiting := st'.visiting.erase name,
                        sorted := st'.sorted ++ [entry] }

/-- `topologicalSort`: DFS over every plugin name; throws on cycles. -/
def topologicalSort (ps : List PluginEntry) : Except String (List PluginEntry) :=
  match (ps.map (fun p => p.name)).foldlM
          (fun st n => visit ps (ps.length + 1) st n)
          { visited := [], visiting := [], sorted := [] } with
  | Except.error e => Except.error e
  | Except.ok st => Except.ok st.sorted

/-- `loadAll`: discovery result is sorted, then each plugin is loaded in
order; a sort error propagates before any `loadPlugin` call, so the load
order is empty in that case. -/
def loadAll (ps : List PluginEntry) : Except String (List String) :=
  match topologicalSort ps with
  | Except.error e => Except.error e
  | Except.ok sorted => Except.ok (sorted.map (fun p => p.name))

/-- Dependency edge of the batch: `a` resolves to an entry whose
dependency list mentions `b`. -/
def depEdge (ps : List PluginEntry) (a b : String) : Prop :=
  ∃ ea, byNameGet ps a = some ea ∧ b ∈ ea.dependencies

/-- The dependency graph restricted to the batch has a cycle. -/
def HasCycle (ps : List PluginEntry) : Prop :=
  ∃ n, Relation.TransGen (depEdge ps) n n

/-- Every element's in-batch dependencies were already emitted (`seen`
accumulates the names emitted so far). -/
def depsBeforeAux (ps : List PluginEntry) : List String → List PluginEntry → Prop
  | _, [] => True
  | seen, e :: rest =>
      (∀ d ∈ e.dependencies, (byNameGet ps d).isSome = true → d ∈ seen) ∧
      depsBeforeAux ps (seen ++ [e.name]) rest

/-- The output order is topological: every plugin appears after all of its
dependencies that name a plugin of the batch. -/
def depsBefore (ps : List PluginEntry) (l : List PluginEntry) : Prop :=
  depsBeforeAux ps [] l

/-- The distinct names of the batch (bounds the DFS depth). -/
def batchNames (ps : List PluginEntry) : List String := (ps.map (fun p => p.name)).dedup

/-- The `visiting` set always forms a dependency chain (most recent
first). -/
def chainOK (ps : List PluginEntry) : List String → Prop
  | [] => True
  | [_] => True
  | a :: b :: t => depEdge ps b a ∧ chainOK ps (b :: t)

/-- Relation between a visited name and the `visiting` stack: either the
stack is empty (a top-level call) or the top of the stack depends on the
name. -/
def linkOK (ps : List PluginEntry) (name : String) : List String → Prop
  | [] => True
  | v :: _ => depEdge ps v name

/-- Invariant of the DFS state. -/
structure TopoInv (ps : List PluginEntry) (st : SortState) : Prop where
  visited_eq : st.visited = (st.sorted.map (fun e => e.name)).reverse
  visited_nodup : st.visited.Nodup
  disj : ∀ v ∈ st.visited, v ∉ st.visiting
  sorted_entries : ∀ e ∈ st.sorted, byNameGet ps e.name = some e
  order_ok : depsBefore ps st.sorted
  visiting_batch : ∀ v ∈ st.visiting, (byNameGet ps v).isSome = true
  visiting_nodup : st.visiting.Nodup

/-- Fuel bound: strictly more fuel than there are distinct batch names not
currently on the `visiting` stack. -/
def fuelOK (ps : List PluginEntry) (fuel : Nat) (st : SortState) : Prop :=
  ((batchNames ps).filter (fun x => decide (x ∉ st.visiting))).length < fuel

/-- What a successful `visit` call guarantees: the invariant is preserved,
the `visiting` stack is restored, `visited` only grows, `sorted` is only
appended to, and the visited name is recorded whenever it names a batch
plugin. -/
def VisitOkSpec (ps : List PluginEntry) (st st' : SortState) (name : String) : Prop :=
  TopoInv ps st' ∧ st'.visiting = st.visiting ∧
  (∀ v ∈ st.visited, v ∈ st'.visited) ∧ st.sorted <+: st'.sorted ∧
  ((byNameGet ps name).isSome = true → name ∈ st'.visited)

/-- What a failing `visit` call guarantees: the error is the circular-
dependency error, naming a plugin that really lies on a dependency
cycle. -/
def VisitErrSpec (ps : List PluginEntry) (e : String) : Prop :=
  ∃ x, e = circularMsg x ∧ Relation.TransGen (depEdge ps) x x

/-! ## Container tool handlers (`container/plugins/tasks`, `container/plugins/groups`) -/

structure ToolResultM where
  text : String
  isError : Bool
deriving DecidableEq, Repr

structure ToolCtx where
  chatJid : String
  groupFolder : String
  isMain : Bool
deriving DecidableEq, Repr

structure ScheduleTaskArgs where
  prompt : String
  schedule_type : String
  schedule_value : String
  context_mode : Option String
  target_group_jid : Option String
deriving DecidableEq, Repr

/-- The `{type:"schedule_task"}` IPC document written by the handler
(the wall-clock `timestamp` field is not modelled). -/
structure ScheduleTaskIpc where
  type : String
  prompt : String
  schedule_type : String
  schedule_value : String
  context_mode : String
  targetJid : String
  createdBy : String
deriving DecidableEq, Repr

/-- `schedule_task` tool handler.  Schedule-value validation
(`CronExpressionParser.parse`, `parseInt`, `new Date`) is abstracted into
the three predicates; its outcome is independent of `target_group_jid`.
Returns the tool result and the IPC file written to the tasks drop
directory, if any. -/
def scheduleTaskHandler (validCron validInterval validOnce : String → Bool)
    (args : ScheduleTaskArgs) (ctx : ToolCtx) : ToolResultM × Option ScheduleTaskIpc :=
  if args.schedule_type == "cron" && !(validCron args.schedule_value) then
    ({ text := "Invalid cron: \"" ++ args.schedule_value ++ "\".", isError := true }, none)
  else if args.schedule_type == "interval" && !(validInterval args.schedule_value) then
    ({ text := "Invalid interval: \"" ++ args.schedule_value ++ "\".", isError := true }, none)
  else if args.schedule_type == "once" && !(validOnce args.schedule_value) then
    ({ text := "Invalid timestamp: \"" ++ args.schedule_value ++ "\".", isError := true }, none)
  else
    let targetJid :=
      match args.target_group_jid with
      | some t => if ctx.isMain && t != "" then t else ctx.chatJid
      | none => ctx.chatJid
    let contextMode :=
      match args.context_mode with
      | some m => if m != "" then m else "group"
      | none => "group"
    ({ text := "Task scheduled: " ++ args.schedule_type ++ " - " ++ args.schedule_value,
       isError := false },
     some { type := "schedule_task", prompt := args.prompt,
            schedule_type := args.schedule_type, schedule_value := args.schedule_value,
            context_mode := contextMode, targetJid := targetJid,
            createdBy := ctx.groupFolder })

structure RegisterGroupArgs where
  jid : String
  name : String
  folder : String
  trigger : String
deriving DecidableEq, Repr

/-- The `{type:"register_group"}` IPC document (timestamp not modelled). -/
structure RegisterGroupIpc where
  type : String
  jid : String
  name : String
  folder : String
  trigger : String
deriving DecidableEq, Repr

/-- `register_group` tool handler: only the main group may register; other
contexts get an error result and nothing is written. -/
def registerGroupHandler (args : RegisterGroupArgs) (ctx : ToolCtx) :
    ToolResultM × Option RegisterGroupIpc :=
  if !ctx.isMain then
    ({ text := "Only the main group can register new groups.", isError := true }, none)
  else
    ({ text := "Group \"" ++ args.name ++ "\" registered. It will start receiving messages immediately.",
       isError := false },
     some { type := "register_group", jid := args.jid, name := args.name,
            folder := args.folder, trigger := args.trigger })

/-! ## Discord message splitting (`src/channels/discord.ts`) -/

def jsTrimStart (cs : List Char) : List Char := cs.dropWhile jsWhitespace

/-- `remaining.lastIndexOf('\n', bound)`: the largest index `≤ bound`
holding a newline, or `-1`. -/
def jsLastIndexOfNl (cs : List Char) : Nat → Int
  | 0 => if cs.get? 0 = some '\n' then 0 else -1
  | b + 1 => if cs.get? (b + 1) = some '\n' then ((b : Int) + 1) else jsLastIndexOfNl cs b

/-- The `while (remaining.length > 0)` loop of `splitMessage`.  The loop
shortens `remaining` by at least one character per iteration whenever
`maxLength ≥ 1`, so `remaining.length` is enough fuel (proved below). -/
def splitLoop (maxLength : Nat) : Nat → List Char → List (List Char)
  | 0, _ => []
  | fuel + 1, remaining =>
    if remaining.length = 0 then []
    else if remaining.length ≤ maxLength then [remaining]
    else
      let idx := jsLastIndexOfNl remaining maxLength
      let cut := if idx ≤ 0 then maxLength else idx.toNat
      remaining.take cut :: splitLoop maxLength fuel (jsTrimStart (remaining.drop cut))

/-- `DiscordChannel.splitMessage`. -/
def splitMessage (text : List Char) (maxLength : Nat) : List (List Char) :=
  if text.length ≤ maxLength then [text] else splitLoop maxLength text.length text

/-- The chunk sequence `sendMessage` sends, in order
(`this.splitMessage(text, 2000)` followed by one `send` per chunk). -/
def sendMessageChunks (text : String) : List (List Char) := splitMessage text.data 2000

/-- The chunks interleaved with removed whitespace reassemble the text;
whitespace may also have been dropped after the final chunk. -/
def reassembles : List (List Char) → List Char → Prop
  | [], t => t = []
  | c :: cs, t => ∃ w t2, (∀ x ∈ w, jsWhitespace x = true) ∧ t = c ++ w ++ t2 ∧ reassembles cs t2

/-- Reassembly exactly as the claim words it: whitespace is removed only
at the start of each chunk after the first (none after the last chunk). -/
def reassemblesStrict : List (List Char) → List Char → Prop
  | [], t => t = []
  | [c], t => t = c
  | c :: c2 :: cs, t =>
      ∃ w t2, (∀ x ∈ w, jsWhitespace x = true) ∧ t = c ++ w ++ t2 ∧
        reassemblesStrict (c2 :: cs) t2

/-! ## Lemmas: failure diagnosis -/

theorem filter_recentErrors_eq (err : String) (runs : List TaskRunLog) :
    ((recentErrorsOf runs).filter (fun e => normalizeErr e == normalizeErr err)).length
      = (runs.filter (matchingErrorRun err)).length := by
  induction runs with
  | nil => rfl
  | cons r t ih =>
    have hstep : recentErrorsOf (r :: t) =
        (match r.error with
         | some e => if r.status == RunStatus.error && e != "" then [e] else []
         | none => []) ++ recentErrorsOf t := by
      simp only [recentErrorsOf, List.filterMap_cons]
      cases r.error with
      | none => rfl
      | some e => by_cases h : (r.status == RunStatus.error && e != "") = true <;> simp [h]
    rw [hstep, List.filter_append, List.length_append, ih, List.filter_cons]
    cases herr : r.error with
    | none => simp [matchingErrorRun, herr]
    | some e =>
      cases hst : (r.status == RunStatus.error) <;>
      cases hne : (e != "") <;>
      cases hnorm : (normalizeErr e == normalizeErr err) <;>
      simp [matchingErrorRun, herr, hst, hne, hnorm] <;> omega

theorem diagnose_skips_orphaned (task : ScheduledTask) (runs : List TaskRunLog) (err : String)
    (h1 : containsSub (lowerStr err) "group not found" = false)
    (h2 : containsSub (lowerStr err) "chat not found" = false) :
    diagnoseTaskFailure task runs err = diagnoseRest runs err := by
  unfold diagnoseTaskFailure
  cases hB : containsSub (lowerStr err) "not found" <;> simp [h1, h2, hB]

theorem diagnoseRest_persistent (runs : List TaskRunLog) (err : String)
    (h3 : containsSub (lowerStr err) "rate limit" = false)
    (h4 : containsSub (lowerStr err) "429" = false)
    (h5 : containsSub (lowerStr err) "too many requests" = false)
    (h6 : containsSub (lowerStr err) "api error" = false)
    (h7 : containsSub (lowerStr err) "timeout" = false)
    (h8 : containsSub (lowerStr err) "timed out" = false)
    (h9 : containsSub (lowerStr err) "idle timeout" = false)
    (hcount : 2 ≤ (runs.filter (matchingErrorRun err)).length) :
    diagnoseRest runs err =
      { pattern := DiagPattern.persistent,
        description := "Persistenter Fehler (" ++
          toString ((runs.filter (matchingErrorRun err)).length + 1) ++ "x wiederholt)",
        recommendation := DiagRecommendation.pause,
        details := some err } := by
  have hsame := filter_recentErrors_eq err runs
  have hcount2 : 2 ≤ ((recentErrorsOf runs).filter
      (fun e => normalizeErr e == normalizeErr err)).length := by omega
  have hlen : 2 ≤ (recentErrorsOf runs).length :=
    le_trans hcount2 (List.length_filter_le _ _)
  unfold diagnoseRest
  simp [h3, h4, h5, h6, h7, h8, h9, hlen, hcount2, hsame, hcount]

theorem diagnoseRest_rateLimited (runs : List TaskRunLog) (err : String)
    (hrl : containsSub (lowerStr err) "rate limit" = true ∨
           containsSub (lowerStr err) "429" = true ∨
           containsSub (lowerStr err) "too many requests" = true ∨
           containsSub (lowerStr err) "api error" = true) :
    diagnoseRest runs err =
      { pattern := DiagPattern.rateLimited, description := "API Rate-Limit erreicht",
        recommendation := DiagRecommendation.retry, details := some err } := by
  unfold diagnoseRest
  rcases hrl with h | h | h | h <;> simp [h]

/-- C1: a failure matching no orphaned/rate-limit/timeout keyword, with at
least two recent error runs carrying the same error up to prefix
normalization, is diagnosed persistent/pause, and `handleTaskFailure`
pauses the task and sends exactly one notification to the task's chat
JID. -/
theorem claim_C1_persistent_pauses (task : ScheduledTask) (runs : List TaskRunLog) (err : String)
    (h1 : containsSub (lowerStr err) "group not found" = false)
    (h2 : containsSub (lowerStr err) "chat not found" = false)
    (h3 : containsSub (lowerStr err) "rate limit" = false)
    (h4 : containsSub (lowerStr err) "429" = false)
    (h5 : containsSub (lowerStr err) "too many requests" = false)
    (h6 : containsSub (lowerStr err) "api error" = false)
    (h7 : containsSub (lowerStr err) "timeout" = false)
    (h8 : containsSub (lowerStr err) "timed out" = false)
    (h9 : containsSub (lowerStr err) "idle timeout" = false)
    (hcount : 2 ≤ (runs.filter (matchingErrorRun err)).length) :
    (diagnoseTaskFailure task runs err).pattern = DiagPattern.persistent ∧
    (diagnoseTaskFailure task runs err).recommendation = DiagRecommendation.pause ∧
    handleTaskFailure task runs err =
      { newStatus := some TaskStatus.paused,
        notifications := [(task.chat_jid,
          formatFailureNotification task (diagnoseTaskFailure task runs err) err "paused")],
        retries := [] } := by
  have hd : diagnoseTaskFailure task runs err =
      { pattern := DiagPattern.persistent,
        description := "Persistenter Fehler (" ++
          toString ((runs.filter (matchingErrorRun err)).length + 1) ++ "x wiederholt)",
        recommendation := DiagRecommendation.pause,
        details := some err } :=
    (diagnose_skips_orphaned task runs err h1 h2).trans
      (diagnoseRest_persistent runs err h3 h4 h5 h6 h7 h8 h9 hcount)
  refine ⟨by rw [hd], by rw [hd], ?_⟩
  simp only [handleTaskFailure, hd]

/-- Witness for C1 at a concrete task, run history and error. -/
theorem claim_C1_witness :
    (handleTaskFailure
      { id := "t1", group_folder := "main", chat_jid := "123@g.us", prompt := "check",
        status := TaskStatus.active, retry_count := 0, max_retries := 3, last_error := none }
      [ { task_id := "t1", run_at := "a", status := RunStatus.error, result := none,
          error := some "boom" },
        { task_id := "t1", run_at := "b", status := RunStatus.error, result := none,
          error := some "boom" } ]
      "boom").newStatus = some TaskStatus.paused := by
  have h := claim_C1_persistent_pauses
    { id := "t1", group_folder := "main", chat_jid := "123@g.us", prompt := "check",
      status := TaskStatus.active, retry_count := 0, max_retries := 3, last_error := none }
    [ { task_id := "t1", run_at := "a", status := RunStatus.error, result := none,
        error := some "boom" },
      { task_id := "t1", run_at := "b", status := RunStatus.error, result := none,
        error := some "boom" } ]
    "boom"
    (by decide) (by decide) (by decide) (by decide) (by decide) (by decide)
    (by decide) (by decide) (by decide) (by decide)
  rw [h.2.2]

/-- C2: with a diagnosis on the standard retry path, `handleTaskFailure`
schedules a retry without notifying while the incremented retry count is
at most `maxRetries`, and on exceeding it sets the task to `error` with
exactly one notification to the task's chat. -/
theorem claim_C2_retry_exhaustion (task : ScheduledTask) (runs : List TaskRunLog) (err : String)
    (ho : (diagnoseTaskFailure task runs err).pattern ≠ DiagPattern.orphaned)
    (hp : (diagnoseTaskFailure task runs err).pattern ≠ DiagPattern.persistent)
    (hr : (diagnoseTaskFailure task runs err).pattern ≠ DiagPattern.rateLimited) :
    (task.retry_count + 1 ≤ maxRetriesOf task →
       handleTaskFailure task runs err =
         { newStatus := none, notifications := [],
           retries := [standardRetryDelay (task.retry_count + 1)] }) ∧
    (maxRetriesOf task < task.retry_count + 1 →
       handleTaskFailure task runs err =
         { newStatus := some TaskStatus.error,
           notifications := [(task.chat_jid,
             formatFailureNotification task (diagnoseTaskFailure task runs err) err "error")],
           retries := [] }) := by
  cases hpat : (diagnoseTaskFailure task runs err).pattern with
  | orphaned => exact absurd hpat ho
  | persistent => exact absurd hpat hp
  | rateLimited => exact absurd hpat hr
  | timeout =>
    constructor <;> intro h <;>
      simp only [handleTaskFailure, hpat, incrementTaskRetryCount, standardRetryDelay] <;>
      [rw [if_pos h]; rw [if_neg (by omega)]]
  | transient =>
    constructor <;> intro h <;>
      simp only [handleTaskFailure, hpat, incrementTaskRetryCount, standardRetryDelay] <;>
      [rw [if_pos h]; rw [if_neg (by omega)]]
  | unknown =>
    constructor <;> intro h <;>
      simp only [handleTaskFailure, hpat, incrementTaskRetryCount, standardRetryDelay] <;>
      [rw [if_pos h]; rw [if_neg (by omega)]]

/-- Witness for C2 at a concrete task (first failure, retry scheduled;
and a task beyond its retry budget, error + notification). -/
theorem claim_C2_witness :
    (handleTaskFailure
      { id := "t2", group_folder := "g", chat_jid := "j", prompt := "p",
        status := TaskStatus.active, retry_count := 0, max_retries := 3, last_error := none }
      [] "weird").retries = [30000] ∧
    (handleTaskFailure
      { id := "t2", group_folder := "g", chat_jid := "j", prompt := "p",
        status := TaskStatus.active, retry_count := 3, max_retries := 3, last_error := none }
      [] "weird").newStatus = some TaskStatus.error := by
  constructor
  · have h := claim_C2_retry_exhaustion
      { id := "t2", group_folder := "g", chat_jid := "j", prompt := "p",
        status := TaskStatus.active, retry_count := 0, max_retries := 3, last_error := none }
      [] "weird" (by decide) (by decide) (by decide)
    rw [h.1 (by decide)]
    rfl
  · have h := claim_C2_retry_exhaustion
      { id := "t2", group_folder := "g", chat_jid := "j", prompt := "p",
        status := TaskStatus.active, retry_count := 3, max_retries := 3, last_error := none }
      [] "weird" (by decide) (by decide) (by decide)
    rw [h.2 (by decide)]

/-- Counterexample for C3 as stated: the error matches a rate-limit
pattern and the retry budget is not exhausted, yet no 10-minute retry is
scheduled — the orphaned check runs first, so "rate limit chat not found"
deactivates the task instead. -/
theorem claim_C3_counterexample :
    containsSub (lowerStr "rate limit chat not found") "rate limit" = true ∧
    (0 : Nat) + 1 ≤ maxRetriesOf
      { id := "t3", group_folder := "g", chat_jid := "j", prompt := "p",
        status := TaskStatus.active, retry_count := 0, max_retries := 3, last_error := none } ∧
    (handleTaskFailure
      { id := "t3", group_folder := "g", chat_jid := "j", prompt := "p",
        status := TaskStatus.active, retry_count := 0, max_retries := 3, last_error := none }
      [] "rate limit chat not found").retries = [] ∧
    (handleTaskFailure
      { id := "t3", group_folder := "g", chat_jid := "j", prompt := "p",
        status := TaskStatus.active, retry_count := 0, max_retries := 3, last_error := none }
      [] "rate limit chat not found").newStatus = some TaskStatus.completed := by
  refine ⟨by decide, by decide, ?_, ?_⟩ <;> rfl

/-- C3 (amended): a failure whose error matches a rate-limit pattern and
matches neither orphaned pattern always retries at the largest rung
(10 minutes) while the retry count allows, and transitions to `error`
with one notification once it exceeds `maxRetries`. -/
theorem claim_C3_rate_limit_max_rung (task : ScheduledTask) (runs : List TaskRunLog) (err : String)
    (hrl : containsSub (lowerStr err) "rate limit" = true ∨
           containsSub (lowerStr err) "429" = true ∨
           containsSub (lowerStr err) "too many requests" = true ∨
           containsSub (lowerStr err) "api error" = true)
    (h1 : containsSub (lowerStr err) "group not found" = false)
    (h2 : containsSub (lowerStr err) "chat not found" = false) :
    RETRY_DELAYS.getD (RETRY_DELAYS.length - 1) 0 = 600000 ∧
    (task.retry_count + 1 ≤ maxRetriesOf task →
       handleTaskFailure task runs err =
         { newStatus := none, notifications := [], retries := [600000] }) ∧
    (maxRetriesOf task < task.retry_count + 1 →
       handleTaskFailure task runs err =
         { newStatus := some TaskStatus.error,
           notifications := [(task.chat_jid,
             formatFailureNotification task (diagnoseTaskFailure task runs err) err "error")],
           retries := [] }) := by
  have hd : diagnoseTaskFailure task runs err =
      { pattern := DiagPattern.rateLimited, description := "API Rate-Limit erreicht",
        recommendation := DiagRecommendation.retry, details := some err } :=
    (diagnose_skips_orphaned task runs err h1 h2).trans (diagnoseRest_rateLimited runs err hrl)
  refine ⟨rfl, fun h => ?_, fun h => ?_⟩
  · simp only [handleTaskFailure, hd, incrementTaskRetryCount]
    rw [if_pos h]
    rfl
  · simp only [handleTaskFailure, hd, incrementTaskRetryCount]
    rw [if_neg (by omega)]

/-- Witness for C3 (amended) at a concrete rate-limited failure: the
retry is scheduled at the 10-minute rung regardless of the retry count. -/
theorem claim_C3_witness :
    (handleTaskFailure
      { id := "t3", group_folder := "g", chat_jid := "j", prompt := "p",
        status := TaskStatus.active, retry_count := 1, max_retries := 3, last_error := none }
      [] "HTTP 429 Too Many Requests").retries = [600000] := by
  have h := claim_C3_rate_limit_max_rung
    { id := "t3", group_folder := "g", chat_jid := "j", prompt := "p",
      status := TaskStatus.active, retry_count := 1, max_retries := 3, last_error := none }
    [] "HTTP 429 Too Many Requests"
    (Or.inr (Or.inl (by decide))) (by decide) (by decide)
  rw [h.2.1 (by decide)]

/-- C4: on the standard retry path the `n`-th consecutive retry waits
`RETRY_DELAYS[min(n-1, 2)]` over the 30s/2min/10min ladder, the delay is
non-decreasing in the retry count, and it stays at the last rung once
reached. -/
theorem claim_C4_retry_ladder :
    (∀ (task : ScheduledTask) (runs : List TaskRunLog) (err : String),
       (diagnoseTaskFailure task runs err).pattern ≠ DiagPattern.orphaned →
       (diagnoseTaskFailure task runs err).pattern ≠ DiagPattern.persistent →
       (diagnoseTaskFailure task runs err).pattern ≠ DiagPattern.rateLimited →
       task.retry_count + 1 ≤ maxRetriesOf task →
       (handleTaskFailure task runs err).retries =
         [RETRY_DELAYS.getD (min (task.retry_count + 1 - 1) 2) 0]) ∧
    (∀ n, standardRetryDelay n = RETRY_DELAYS.getD (min (n - 1) 2) 0) ∧
    (∀ m n, m ≤ n → standardRetryDelay m ≤ standardRetryDelay n) ∧
    (∀ n, 3 ≤ n → standardRetryDelay n = 600000) := by
  have hclosed : ∀ n, standardRetryDelay n =
      if n ≤ 1 then 30000 else if n = 2 then 120000 else 600000 := by
    intro n
    rcases n with _ | _ | _ | k
    · rfl
    · rfl
    · rfl
    · show RETRY_DELAYS.getD (min (k + 3 - 1) (RETRY_DELAYS.length - 1)) 0 = _
      have hmin : min (k + 3 - 1) (RETRY_DELAYS.length - 1) = 2 := by
        simp [RETRY_DELAYS]
      rw [hmin]
      rfl
  refine ⟨?_, fun n => rfl, fun m n h => ?_, fun n h => ?_⟩
  · intro task runs err ho hp hr hle
    cases hpat : (diagnoseTaskFailure task runs err).pattern with
    | orphaned => exact absurd hpat ho
    | persistent => exact absurd hpat hp
    | rateLimited => exact absurd hpat hr
    | timeout =>
      simp only [handleTaskFailure, hpat, incrementTaskRetryCount]
      rw [if_pos hle]
      rfl
    | transient =>
      simp only [handleTaskFailure, hpat, incrementTaskRetryCount]
      rw [if_pos hle]
      rfl
    | unknown =>
      simp only [handleTaskFailure, hpat, incrementTaskRetryCount]
      rw [if_pos hle]
      rfl
  · rw [hclosed m, hclosed n]
    split_ifs <;> omega
  · rw [hclosed n]
    split_ifs <;> omega

/-- Witness for C4: three consecutive standard retries climb the ladder
and a fourth stays on the last rung. -/
theorem claim_C4_witness :
    (handleTaskFailure
      { id := "t4", group_folder := "g", chat_jid := "j", prompt := "p",
        status := TaskStatus.active, retry_count := 1, max_retries := 5, last_error := none }
      [] "odd failure").retries = [120000] ∧
    standardRetryDelay 1 ≤ standardRetryDelay 2 ∧
    standardRetryDelay 4 = 600000 := by
  refine ⟨?_, claim_C4_retry_ladder.2.2.1 1 2 (by decide),
         claim_C4_retry_ladder.2.2.2 4 (by decide)⟩
  have h := claim_C4_retry_ladder.1
    { id := "t4", group_folder := "g", chat_jid := "j", prompt := "p",
      status := TaskStatus.active, retry_count := 1, max_retries := 5, last_error := none }
    [] "odd failure" (by decide) (by decide) (by decide) (by decide)
  rw [h]
  rfl

/-! ## Claims about the container tool handlers -/

/-- C8: outside the main context (`isMain = false`), the `schedule_task`
handler always writes `targetJid = ctx.chatJid`, and two invocations
differing only in `target_group_jid` write the same task request. -/
theorem claim_C8_target_jid_noninterference
    (validCron validInterval validOnce : String → Bool)
    (args : ScheduleTaskArgs) (ctx : ToolCtx) (hmain : ctx.isMain = false) :
    (∀ file, (scheduleTaskHandler validCron validInterval validOnce args ctx).2 = some file →
       file.targetJid = ctx.chatJid) ∧
    (∀ t1 t2,
       (scheduleTaskHandler validCron validInterval validOnce
         { args with target_group_jid := t1 } ctx).2 =
       (scheduleTaskHandler validCron validInterval validOnce
         { args with target_group_jid := t2 } ctx).2) := by
  constructor
  · intro file hfile
    unfold scheduleTaskHandler at hfile
    split at hfile
    · exact absurd hfile (by simp)
    · split at hfile
      · exact absurd hfile (by simp)
      · split at hfile
        · exact absurd hfile (by simp)
        · simp only [Option.some.injEq] at hfile
          rw [← hfile]
          cases htj : args.target_group_jid with
          | none => simp
          | some t => simp [htj, hmain]
  · intro t1 t2
    unfold scheduleTaskHandler
    split
    · rfl
    · split
      · rfl
      · split
        · rfl
        · cases t1 <;> cases t2 <;> simp [hmain]

/-- Witness for C8: with `isMain = false`, passing a foreign
`target_group_jid` still targets the invoking chat. -/
theorem claim_C8_witness :
    ((scheduleTaskHandler (fun _ => true) (fun _ => true) (fun _ => true)
      { prompt := "p", schedule_type := "cron", schedule_value := "0 9 * * *",
        context_mode := none, target_group_jid := some "other@g.us" }
      { chatJid := "me@g.us", groupFolder := "family", isMain := false }).2 =
      (scheduleTaskHandler (fun _ => true) (fun _ => true) (fun _ => true)
        { prompt := "p", schedule_type := "cron", schedule_value := "0 9 * * *",
          context_mode := none, target_group_jid := none }
        { chatJid := "me@g.us", groupFolder := "family", isMain := false }).2) ∧
    (∀ file, (scheduleTaskHandler (fun _ => true) (fun _ => true) (fun _ => true)
      { prompt := "p", schedule_type := "cron", schedule_value := "0 9 * * *",
        context_mode := none, target_group_jid := some "other@g.us" }
      { chatJid := "me@g.us", groupFolder := "family", isMain := false }).2 = some file →
      file.targetJid = "me@g.us") := by
  have h := claim_C8_target_jid_noninterference (fun _ => true) (fun _ => true) (fun _ => true)
    { prompt := "p", schedule_type := "cron", schedule_value := "0 9 * * *",
      context_mode := none, target_group_jid := some "other@g.us" }
    { chatJid := "me@g.us", groupFolder := "family", isMain := false } rfl
  exact ⟨h.2 (some "other@g.us") none, h.1⟩

/-- C9: `register_group` invoked outside the main context returns an
error result and writes nothing; invoked from main it writes a
`{type:"register_group"}` IPC file. -/
theorem claim_C9_register_group_main_only (args : RegisterGroupArgs) (ctx : ToolCtx) :
    (ctx.isMain = false →
       (registerGroupHandler args ctx).1.isError = true ∧
       (registerGroupHandler args ctx).2 = none) ∧
    (ctx.isMain = true →
       (registerGroupHandler args ctx).2 =
         some { type := "register_group", jid := args.jid, name := args.name,
                folder := args.folder, trigger := args.trigger } ∧
       ∀ file, (registerGroupHandler args ctx).2 = some file → file.type = "register_group") := by
  constructor
  · intro h
    simp [registerGroupHandler, h]
  · intro h
    refine ⟨by simp [registerGroupHandler, h], ?_⟩
    intro file hfile
    simp [registerGroupHandler, h] at hfile
    rw [← hfile]

/-- Witness for C9 on both sides of `isMain`. -/
theorem claim_C9_witness :
    (registerGroupHandler
      { jid := "x@g.us", name := "X", folder := "x", trigger := "@Andy" }
      { chatJid := "j", groupFolder := "family", isMain := false }).2 = none ∧
    (registerGroupHandler
      { jid := "x@g.us", name := "X", folder := "x", trigger := "@Andy" }
      { chatJid := "j", groupFolder := "main", isMain := true }).2 ≠ none := by
  constructor
  · exact (claim_C9_register_group_main_only
      { jid := "x@g.us", name := "X", folder := "x", trigger := "@Andy" }
      { chatJid := "j", groupFolder := "family", isMain := false }).1 rfl |>.2
  · have h := (claim_C9_register_group_main_only
      { jid := "x@g.us", name := "X", folder := "x", trigger := "@Andy" }
      { chatJid := "j", groupFolder := "main", isMain := true }).2 rfl
    rw [h.1]
    simp

/-! ## Lemmas: message splitting -/

theorem jsLastIndexOfNl_le (cs : List Char) : ∀ b : Nat, jsLastIndexOfNl cs b ≤ (b : Int) := by
  intro b
  induction b with
  | zero => unfold jsLastIndexOfNl; split <;> omega
  | succ b ih =>
    unfold jsLastIndexOfNl
    split
    · omega
    · exact le_trans ih (by omega)

theorem splitLoop_spec (maxLength : Nat) (hmax : 1 ≤ maxLength) :
    ∀ fuel remaining, remaining.length ≤ fuel →
      reassembles (splitLoop maxLength fuel remaining) remaining ∧
      (∀ c ∈ splitLoop maxLength fuel remaining, c.length ≤ maxLength) ∧
      (remaining ≠ [] → splitLoop maxLength fuel remaining ≠ []) := by
  intro fuel
  induction fuel with
  | zero =>
    intro remaining hlen
    have hnil : remaining = [] := List.eq_nil_of_length_eq_zero (by omega)
    subst hnil
    refine ⟨by simp [splitLoop, reassembles], by simp [splitLoop], fun h => absurd rfl h⟩
  | succ fuel ih =>
    intro remaining hlen
    by_cases h0 : remaining.length = 0
    · have hnil : remaining = [] := List.eq_nil_of_length_eq_zero h0
      subst hnil
      refine ⟨by simp [splitLoop, reassembles], by simp [splitLoop], fun h => absurd rfl h⟩
    · by_cases hle : remaining.length ≤ maxLength
      · have hs : splitLoop maxLength (fuel + 1) remaining = [remaining] := by
          unfold splitLoop
          rw [if_neg h0, if_pos hle]
        refine ⟨?_, ?_, ?_⟩
        · rw [hs]
          exact ⟨[], [], by simp, by simp, rfl⟩
        · rw [hs]
          intro c hc
          simp at hc
          simpa [hc] using hle
        · rw [hs]
          simp
      · -- long remainder: one chunk is cut off and the loop recurses
        set idx := jsLastIndexOfNl remaining maxLength with hidx
        set cut := if idx ≤ 0 then maxLength else idx.toNat with hcut
        have hcut1 : 1 ≤ cut := by
          rw [hcut]
          split
          · exact hmax
          · omega
        have hcutmax : cut ≤ maxLength := by
          have hb := jsLastIndexOfNl_le remaining maxLength
          rw [hcut]
          split
          · exact le_refl _
          · omega
        have hs : splitLoop maxLength (fuel + 1) remaining =
            remaining.take cut :: splitLoop maxLength fuel (jsTrimStart (remaining.drop cut)) := by
          conv_lhs => unfold splitLoop
          rw [if_neg h0, if_neg hle]
        have hlen' : (jsTrimStart (remaining.drop cut)).length ≤ fuel := by
          have h1 : (remaining.drop cut).length = remaining.length - cut := List.length_drop _ _
          have h2 : (jsTrimStart (remaining.drop cut)).length ≤ (remaining.drop cut).length :=
            (List.dropWhile_sublist _).length_le
          omega
        obtain ⟨ihr, ihc, _⟩ := ih (jsTrimStart (remaining.drop cut)) hlen'
        refine ⟨?_, ?_, ?_⟩
        · rw [hs]
          refine ⟨(remaining.drop cut).takeWhile jsWhitespace, jsTrimStart (remaining.drop cut),
            ?_, ?_, ihr⟩
          · intro x hx
            exact List.mem_takeWhile_imp hx
          · simp only [jsTrimStart]
            rw [List.append_assoc, List.takeWhile_append_dropWhile, List.take_append_drop]
        · rw [hs]
          intro c hc
          rcases List.mem_cons.mp hc with hc | hc
          · subst hc
            calc (remaining.take cut).length ≤ cut := by
                  rw [List.length_take]; omega
              _ ≤ maxLength := hcutmax
          · exact ihc c hc
        · intro _
          rw [hs]
          simp

/-- Counterexample for C10 as stated: for `"aa\n   "` at `maxLength = 2`
the split is `["aa"]`, and whitespace was removed after the final chunk,
so concatenating the chunks does not reproduce the text under the claim's
reading (whitespace removed only at the start of chunks after the
first). -/
theorem claim_C10_counterexample :
    splitMessage "aa\n   ".data 2 = [['a', 'a']] ∧
    ¬ reassemblesStrict [['a', 'a']] "aa\n   ".data := by
  constructor
  · decide
  · show ¬ ("aa\n   ".data = ['a', 'a'])
    decide

/-- C10 (amended): for `maxLength ≥ 1`, `splitMessage` terminates with a
non-empty chunk list, each chunk at most `maxLength` long, and the chunks
in order reassemble the text up to whitespace dropped at the start of
each chunk after the first or after the last chunk; `sendMessage` sends
exactly these chunks (at 2000) sequentially. -/
theorem claim_C10_split_message (text : List Char) (maxLength : Nat) (hmax : 1 ≤ maxLength) :
    splitMessage text maxLength ≠ [] ∧
    (∀ c ∈ splitMessage text maxLength, c.length ≤ maxLength) ∧
    reassembles (splitMessage text maxLength) text ∧
    (∀ s : String, sendMessageChunks s = splitMessage s.data 2000) := by
  by_cases h : text.length ≤ maxLength
  · have hs : splitMessage text maxLength = [text] := by
      unfold splitMessage
      rw [if_pos h]
    refine ⟨by rw [hs]; simp, ?_, ?_, fun s => rfl⟩
    · rw [hs]
      intro c hc
      simp at hc
      simpa [hc] using h
    · rw [hs]
      exact ⟨[], [], by simp, by simp, rfl⟩
  · have hs : splitMessage text maxLength = splitLoop maxLength text.length text := by
      unfold splitMessage
      rw [if_neg h]
    obtain ⟨hr, hc, hne⟩ := splitLoop_spec maxLength hmax text.length text (le_refl _)
    refine ⟨?_, by rw [hs]; exact hc, by rw [hs]; exact hr, fun s => rfl⟩
    rw [hs]
    exact hne (by intro hnil; rw [hnil] at h; simp at h)

/-- Witness for C10 (amended) at a concrete text and width. -/
theorem claim_C10_witness :
    splitMessage "hello\nworld".data 6 ≠ [] ∧
    (∀ c ∈ splitMessage "hello\nworld".data 6, c.length ≤ 6) ∧
    reassembles (splitMessage "hello\nworld".data 6) "hello\nworld".data :=
  ⟨(claim_C10_split_message "hello\nworld".data 6 (by decide)).1,
   (claim_C10_split_message "hello\nworld".data 6 (by decide)).2.1,
   (claim_C10_split_message "hello\nworld".data 6 (by decide)).2.2.1⟩

/-! ## Lemmas: IPC drain -/

theorem insertByName_of_le (f : IpcFile) (files : List IpcFile)
    (hf : ∀ g ∈ files, nameLe f.name g.name = true) :
    insertByName f files = f :: files := by
  cases files with
  | nil => rfl
  | cons g t =>
    unfold insertByName
    rw [if_pos (hf g (by simp))]

theorem sortByName_eq_self (files : List IpcFile) (h : namesSorted files) :
    sortByName files = files := by
  induction files with
  | nil => rfl
  | cons f t ih =>
    rw [namesSorted, List.pairwise_cons] at h
    unfold sortByName
    rw [ih h.2, insertByName_of_le f t h.1]

theorem filterMap_drained_of_messages :
    ∀ (files : List IpcFile) (xs : List String),
      files.map (fun f => f.content) = xs.map IpcContent.message →
      (∀ x ∈ xs, x ≠ "") →
      files.filterMap (fun f => drainedText f.content) = xs := by
  intro files
  induction files with
  | nil =>
    intro xs h _
    cases xs with
    | nil => rfl
    | cons x xt => simp at h
  | cons f t ih =>
    intro xs h hx
    cases xs with
    | nil => simp at h
    | cons x xt =>
      simp only [List.map_cons, List.cons.injEq] at h
      obtain ⟨hf, ht⟩ := h
      have hxne : (x == "") = false := beq_eq_false_iff_ne.mpr (hx x (by simp))
      have hdx : drainedText (IpcContent.message x) = some x := by
        simp [drainedText, hxne]
      rw [List.filterMap_cons, hf, hdx]
      rw [ih xt ht (fun y hy => hx y (by simp [hy]))]

/-- Counterexample for C6 as stated: a `{type:"message", text:""}` file is
unlinked but its (empty) text is not returned (`data.text` is falsy), so
the drain does not return every written text. -/
theorem claim_C6_counterexample :
    drainIpcInput [{ name := "1700000000000-abc123.json", content := IpcContent.message "" }] =
      ([], []) ∧
    ([] : List String) ≠ [""] := by
  exact ⟨by decide, by decide⟩

/-- C6 (amended): writing non-empty texts as `{type:"message", text:x}`
files (names ascending, `.json`-suffixed) and draining returns exactly
those texts in write order with the inbox emptied; unparseable or non-
message files are unlinked as well and do not prevent the remaining
texts from being returned. -/
theorem claim_C6_drain_round_trip :
    (∀ (files : List IpcFile) (xs : List String),
       namesSorted files →
       (∀ f ∈ files, strEndsWith f.name ".json" = true) →
       files.map (fun f => f.content) = xs.map IpcContent.message →
       (∀ x ∈ xs, x ≠ "") →
       drainIpcInput files = (xs, [])) ∧
    (∀ files : List IpcFile,
       namesSorted files →
       (∀ f ∈ files, strEndsWith f.name ".json" = true) →
       (drainIpcInput files).1 = files.filterMap (fun f => drainedText f.content) ∧
       (drainIpcInput files).2 = []) := by
  have key : ∀ files : List IpcFile,
      namesSorted files →
      (∀ f ∈ files, strEndsWith f.name ".json" = true) →
      (drainIpcInput files).1 = files.filterMap (fun f => drainedText f.content) ∧
      (drainIpcInput files).2 = [] := by
    intro files hsorted hjson
    have hfilter : files.filter (fun f => strEndsWith f.name ".json") = files :=
      List.filter_eq_self.mpr hjson
    have hfilter2 : files.filter (fun f => !(strEndsWith f.name ".json")) = [] := by
      rw [List.filter_eq_nil_iff]
      intro f hf
      simp [hjson f hf]
    constructor
    · show (sortByName (files.filter (fun f => strEndsWith f.name ".json"))).filterMap _ = _
      rw [hfilter, sortByName_eq_self files hsorted]
    · show files.filter (fun f => !(strEndsWith f.name ".json")) = []
      exact hfilter2
  refine ⟨?_, key⟩
  intro files xs hsorted hjson hcontents hx
  obtain ⟨h1, h2⟩ := key files hsorted hjson
  have : drainIpcInput files = ((drainIpcInput files).1, (drainIpcInput files).2) := rfl
  rw [this, h1, h2, filterMap_drained_of_messages files xs hcontents hx]

/-- Witness for C6 (amended): two messages around an unparseable file
drain to exactly the two texts, in order, leaving the inbox empty. -/
theorem claim_C6_witness :
    drainIpcInput
      [{ name := "1700000000000-aaa111.json", content := IpcContent.message "hi" },
       { name := "1700000000001-bbb222.json", content := IpcContent.malformed },
       { name := "1700000000002-ccc333.json", content := IpcContent.message "yo" }] =
      (["hi", "yo"], []) := by
  obtain ⟨h1, h2⟩ := claim_C6_drain_round_trip.2
    [{ name := "1700000000000-aaa111.json", content := IpcContent.message "hi" },
     { name := "1700000000001-bbb222.json", content := IpcContent.malformed },
     { name := "1700000000002-ccc333.json", content := IpcContent.message "yo" }]
    (by unfold namesSorted; decide) (by decide)
  have heta : drainIpcInput
      [{ name := "1700000000000-aaa111.json", content := IpcContent.message "hi" },
       { name := "1700000000001-bbb222.json", content := IpcContent.malformed },
       { name := "1700000000002-ccc333.json", content := IpcContent.message "yo" }] =
      ((drainIpcInput
      [{ name := "1700000000000-aaa111.json", content := IpcContent.message "hi" },
       { name := "1700000000001-bbb222.json", content := IpcContent.malformed },
       { name := "1700000000002-ccc333.json", content := IpcContent.message "yo" }]).1,
       (drainIpcInput
      [{ name := "1700000000000-aaa111.json", content := IpcContent.message "hi" },
       { name := "1700000000001-bbb222.json", content := IpcContent.malformed },
       { name := "1700000000002-ccc333.json", content := IpcContent.message "yo" }]).2) := rfl
  rw [heta, h1, h2]
  decide

/-! ## Lemmas: path resolution -/

theorem string_data_append (s t : String) : (s ++ t).data = s.data ++ t.data := rfl

theorem string_mk_data (s : String) : String.mk s.data = s := rfl

theorem splitSegsAux_append (ys : List Char) :
    ∀ (xs acc : List Char),
      splitSegsAux (xs ++ '/' :: ys) acc = splitSegsAux xs acc ++ splitSegsAux ys [] := by
  intro xs
  induction xs with
  | nil => intro acc; simp [splitSegsAux]
  | cons c t ih =>
    intro acc
    by_cases hc : c = '/'
    · subst hc
      simp [splitSegsAux, ih]
    · simp [splitSegsAux, hc, ih]

theorem splitSegsAux_no_slash :
    ∀ (ys acc : List Char), (∀ c ∈ ys, c ≠ '/') →
      splitSegsAux ys acc = [String.mk (acc.reverse ++ ys)] := by
  intro ys
  induction ys with
  | nil => intro acc _; simp [splitSegsAux]
  | cons c t ih =>
    intro acc h
    have hc : c ≠ '/' := h c (by simp)
    simp only [splitSegsAux, if_neg hc]
    rw [ih (c :: acc) (fun x hx => h x (by simp [hx]))]
    simp

theorem contains_false_not_mem (l : List Char) (c : Char) (h : l.contains c = false) : c ∉ l := by
  intro hmem
  have he : l.contains c = true := List.elem_eq_true_of_mem hmem
  rw [he] at h
  simp at h

theorem flatName_spec (f : String) (h : flatName f = true) :
    f ≠ "" ∧ f ≠ "." ∧ f ≠ ".." ∧ ∀ c ∈ f.data, c ≠ '/' := by
  unfold flatName at h
  simp only [Bool.and_eq_true, bne_iff_ne, ne_eq, Bool.not_eq_true'] at h
  obtain ⟨⟨⟨h1, h2⟩, h3⟩, h4⟩ := h
  exact ⟨h1, h2, h3, fun c hc hcs => contains_false_not_mem f.data '/' h4 (hcs ▸ hc)⟩

theorem normalizeSegs_append_flat (l : List String) (f : String)
    (h1 : f ≠ "") (h2 : f ≠ ".") (h3 : f ≠ "..") :
    normalizeSegs (l ++ [f]) = normalizeSegs l ++ [f] := by
  unfold normalizeSegs
  rw [List.foldl_append]
  simp [h1, h2, h3]

theorem normalizeSegs_append_empty (l : List String) :
    normalizeSegs (l ++ [""]) = normalizeSegs l := by
  unfold normalizeSegs
  rw [List.foldl_append]
  simp

theorem splitPath_join (dir f : String) (hdir : dir ≠ "")
    (hf : ∀ c ∈ f.data, c ≠ '/') :
    splitPath (dir ++ "/" ++ f) = splitPath dir ++ [f] := by
  unfold splitPath
  have hdata : (dir ++ "/" ++ f).data = dir.data ++ '/' :: f.data := by
    rw [string_data_append, string_data_append]
    simp
  rw [hdata, splitSegsAux_append f.data dir.data [], splitSegsAux_no_slash f.data [] hf]
  simp [string_mk_data]

theorem startsWith_slash_append (dir rest : String) (hdir : dir ≠ "") :
    strStartsWith (dir ++ rest) "/" = strStartsWith dir "/" := by
  unfold strStartsWith
  rw [string_data_append]
  cases hd : dir.data with
  | nil =>
    exact absurd (by cases dir; simp at hd; simp [hd]) hdir
  | cons c t => simp [List.isPrefixOf, hd]

theorem flat_not_startsWith_slash (f : String) (h1 : f ≠ "")
    (hf : ∀ c ∈ f.data, c ≠ '/') : strStartsWith f "/" = false := by
  unfold strStartsWith
  cases hd : f.data with
  | nil => exact absurd (by cases f; simp at hd; simp [hd]) h1
  | cons c t =>
    have hne : c ≠ '/' := hf c (by simp [hd])
    simp only [List.isPrefixOf, Bool.and_eq_false_iff]
    left
    exact beq_eq_false_iff_ne.mpr (fun hh => hne hh.symm)

theorem resolveSegs_join (cwd : List String) (dir f : String) (hf : flatName f = true) :
    resolveSegs cwd (joinPath dir f) = resolveSegs cwd dir ++ [f] := by
  obtain ⟨h1, h2, h3, h4⟩ := flatName_spec f hf
  by_cases hdir : dir = ""
  · subst hdir
    have hjoin : joinPath "" f = f := by simp [joinPath]
    rw [hjoin]
    unfold resolveSegs
    rw [flat_not_startsWith_slash f h1 h4]
    have hsplit : splitPath f = [f] := by
      unfold splitPath
      rw [splitSegsAux_no_slash f.data [] h4]
      simp [string_mk_data]
    have hsplit0 : splitPath "" = [""] := rfl
    rw [if_neg (by simp), hsplit, hsplit0, normalizeSegs_append_flat cwd f h1 h2 h3,
        normalizeSegs_append_empty cwd, if_neg (by decide)]
  · have hjoin : joinPath dir f = dir ++ "/" ++ f := by
      rw [joinPath, if_neg (by simpa using hdir)]
    have hdirslash : dir ++ "/" ≠ "" := by
      intro h
      have : (dir ++ "/").data = ("" : String).data := by rw [h]
      rw [string_data_append] at this
      simp at this
    have e1 : strStartsWith (dir ++ "/" ++ f) "/" = strStartsWith (dir ++ "/") "/" :=
      startsWith_slash_append (dir ++ "/") f hdirslash
    have e2 : strStartsWith (dir ++ "/") "/" = strStartsWith dir "/" :=
      startsWith_slash_append dir "/" hdir
    have hsp := splitPath_join dir f hdir h4
    rw [hjoin]
    unfold resolveSegs
    rw [e1, e2, hsp]
    by_cases habs : strStartsWith dir "/" = true
    · rw [if_pos habs, if_pos habs, normalizeSegs_append_flat _ f h1 h2 h3]
    · rw [if_neg (by simp [habs]), if_neg (by simp [habs]), ← List.append_assoc,
          normalizeSegs_append_flat _ f h1 h2 h3]

theorem pathToString_append (l : List String) (f : String) (hl : l ≠ []) :
    pathToString (l ++ [f]) = pathToString l ++ "/" ++ f := by
  induction l with
  | nil => exact absurd rfl hl
  | cons s rest ih =>
    cases rest with
    | nil =>
      show "/" ++ s ++ pathToString [f] = "/" ++ s ++ "/" ++ f
      rw [show pathToString [f] = "/" ++ f from rfl]
      simp only [← String.append_assoc]
    | cons s2 rest2 =>
      show "/" ++ s ++ pathToString ((s2 :: rest2) ++ [f]) =
        ("/" ++ s ++ pathToString (s2 :: rest2)) ++ "/" ++ f
      rw [ih (by simp), ← String.append_assoc, ← String.append_assoc]

theorem strStartsWith_iff (s pre : String) : strStartsWith s pre = true ↔ pre.data <+: s.data :=
  List.isPrefixOf_iff_prefix

/-- C5: an IPC write through the MCP server's `writeIpcFile` either
succeeds with a file whose canonical absolute path has the IPC root
`/workspace/ipc` as a prefix, or — whenever the resolved target directory
does not lie under the IPC root — fails with the `IPC write denied`
path-escape error and creates no file; the tasks-plugin `writeIpcFile`
(always invoked on the constant tasks drop directory) also only produces
files under the IPC root. -/
theorem claim_C5_path_containment :
    (∀ (cwd : List String) (dir filename : String), flatName filename = true →
       ∀ fp, writeIpcFile cwd dir filename = Except.ok fp →
         strStartsWith (pathToString (resolveSegs cwd fp)) IPC_DIR = true) ∧
    (∀ (cwd : List String) (dir filename : String),
       ipcWriteAllowed cwd dir = false →
         writeIpcFile cwd dir filename =
           Except.error ("IPC write denied: path escapes IPC directory: " ++ dir)) ∧
    (∀ (cwd : List String) (filename : String), flatName filename = true →
       strStartsWith (pathToString (resolveSegs cwd
         (TasksPlugin.writeIpcFile TasksPlugin.TASKS_DIR filename))) IPC_DIR = true) := by
  refine ⟨?_, ?_, ?_⟩
  · intro cwd dir filename hflat fp hok
    unfold writeIpcFile at hok
    by_cases hallow : ipcWriteAllowed cwd dir = true
    · rw [if_pos hallow, Except.ok.injEq] at hok
      subst hok
      rw [resolveSegs_join cwd dir filename hflat]
      unfold ipcWriteAllowed at hallow
      rw [Bool.or_eq_true] at hallow
      have hR : resolveSegs cwd dir ≠ [] := by
        intro hnil
        rw [hnil] at hallow
        rcases hallow with h | h
        · exact absurd h (by decide)
        · exact absurd h (by decide)
      rw [pathToString_append _ _ hR, strStartsWith_iff, string_data_append, string_data_append]
      rcases hallow with h | h
      · rw [strStartsWith_iff] at h
        refine List.IsPrefix.trans ?_ (List.IsPrefix.trans h ?_)
        · show IPC_DIR.data <+: (IPC_DIR ++ "/").data
          rw [string_data_append]
          exact List.prefix_append _ _
        · exact (List.prefix_append _ _).trans (List.prefix_append _ _)
      · rw [beq_iff_eq] at h
        rw [h, List.append_assoc]
        exact List.prefix_append _ _
    · rw [if_neg hallow] at hok
      exact absurd hok (by simp)
  · intro cwd dir filename hdeny
    unfold writeIpcFile
    rw [if_neg (by simp [hdeny])]
  · intro cwd filename hflat
    show strStartsWith (pathToString (resolveSegs cwd
      (joinPath TasksPlugin.TASKS_DIR filename))) IPC_DIR = true
    rw [resolveSegs_join cwd TasksPlugin.TASKS_DIR filename hflat]
    have hres : resolveSegs cwd TasksPlugin.TASKS_DIR = ["workspace", "ipc", "tasks"] := by
      unfold resolveSegs
      rw [if_pos (by decide)]
      decide
    rw [hres, pathToString_append _ _ (by simp), strStartsWith_iff, string_data_append,
        string_data_append]
    exact ((by decide : IPC_DIR.data <+: (pathToString ["workspace", "ipc", "tasks"]).data)).trans
      (by rw [List.append_assoc]; exact List.prefix_append _ _)

/-- Witness for C5: a write to a subdirectory of the IPC root succeeds
under the root, and a traversal out of the root is denied. -/
theorem claim_C5_witness :
    (∀ fp, writeIpcFile ["workspace", "ipc"] "/workspace/ipc/messages"
        "1700000000000-abc123.json" = Except.ok fp →
      strStartsWith (pathToString (resolveSegs ["workspace", "ipc"] fp)) IPC_DIR = true) ∧
    writeIpcFile ["workspace", "ipc"] "/workspace/ipc/../../etc" "1700000000000-abc123.json" =
      Except.error "IPC write denied: path escapes IPC directory: /workspace/ipc/../../etc" := by
  constructor
  · exact fun fp h => claim_C5_path_containment.1 ["workspace", "ipc"]
      "/workspace/ipc/messages" "1700000000000-abc123.json" (by decide) fp h
  · exact claim_C5_path_containment.2.1 ["workspace", "ipc"] "/workspace/ipc/../../etc"
      "1700000000000-abc123.json" (by decide)

/-! ## Lemmas: plugin registry topological sort -/

theorem byNameGet_mem_name (ps : List PluginEntry) (n : String) (e : PluginEntry)
    (h : byNameGet ps n = some e) : e ∈ ps ∧ e.name = n := by
  unfold byNameGet at h
  have hmem := List.mem_of_find?_eq_some h
  have hname := List.find?_some h
  rw [List.mem_reverse] at hmem
  exact ⟨hmem, by simpa using hname⟩

theorem map_nodup_inj {α β : Type} (f : α → β) (ps : List α)
    (hnd : (ps.map f).Nodup) :
    ∀ p ∈ ps, ∀ q ∈ ps, f p = f q → p = q := by
  induction ps with
  | nil => intro p hp; cases hp
  | cons a t ih =>
    rw [List.map_cons, List.nodup_cons] at hnd
    intro p hp q hq hfpq
    rcases List.mem_cons.mp hp with hp1 | hp1 <;> rcases List.mem_cons.mp hq with hq1 | hq1
    · rw [hp1, hq1]
    · subst hp1
      have hin : f p ∈ List.map f t := by
        rw [hfpq]
        exact List.mem_map_of_mem f hq1
      exact absurd hin hnd.1
    · subst hq1
      have hin : f q ∈ List.map f t := by
        rw [← hfpq]
        exact List.mem_map_of_mem f hp1
      exact absurd hin hnd.1
    · exact ih hnd.2 p hp1 q hq1 hfpq

theorem byNameGet_self (ps : List PluginEntry)
    (hnd : (ps.map (fun p => p.name)).Nodup) (p : PluginEntry) (hp : p ∈ ps) :
    byNameGet ps p.name = some p := by
  cases hfind : byNameGet ps p.name with
  | none =>
    unfold byNameGet at hfind
    rw [List.find?_eq_none] at hfind
    exact absurd (by simp : (p.name == p.name) = true)
      (hfind p (List.mem_reverse.mpr hp))
  | some q =>
    obtain ⟨hqmem, hqname⟩ := byNameGet_mem_name ps p.name q hfind
    rw [map_nodup_inj _ ps hnd q hqmem p hp (by rw [hqname])]

theorem isSome_mem_batch (ps : List PluginEntry) (n : String)
    (h : (byNameGet ps n).isSome = true) : n ∈ batchNames ps := by
  cases hget : byNameGet ps n with
  | none => rw [hget] at h; simp at h
  | some e =>
    obtain ⟨hmem, hname⟩ := byNameGet_mem_name ps n e hget
    rw [batchNames, List.mem_dedup]
    exact hname ▸ List.mem_map_of_mem _ hmem

theorem measure_dec (l v : List String) (a : String)
    (hnd : l.Nodup) (ha : a ∈ l) (hav : a ∉ v) :
    (l.filter (fun x => decide (x ∉ a :: v))).length + 1 =
      (l.filter (fun x => decide (x ∉ v))).length := by
  induction l with
  | nil => cases ha
  | cons b t ih =>
    rw [List.nodup_cons] at hnd
    rcases List.mem_cons.mp ha with hb | hb
    · subst hb
      have hft : t.filter (fun x => decide (x ∉ a :: v)) =
          t.filter (fun x => decide (x ∉ v)) := by
        apply List.filter_congr
        intro y hy
        have hya : y ≠ a := fun h => hnd.1 (h ▸ hy)
        rw [decide_eq_decide]
        simp [List.mem_cons, hya]
      rw [List.filter_cons, List.filter_cons, hft]
      have h1 : decide (a ∉ a :: v) = false := by simp
      have h2 : decide (a ∉ v) = true := by simpa using hav
      rw [h1, h2]
      simp
    · have hba : b ≠ a := fun h => hnd.1 (h ▸ hb)
      have hcond : decide (b ∉ a :: v) = decide (b ∉ v) := by
        rw [decide_eq_decide]
        simp [List.mem_cons, hba]
      rw [List.filter_cons, List.filter_cons, hcond]
      by_cases hdb : b ∉ v
      · rw [if_pos (decide_eq_true hdb), if_pos (decide_eq_true hdb)]
        have := ih hnd.2 hb
        simp only [List.length_cons]
        omega
      · rw [if_neg (fun h => hdb (of_decide_eq_true h)),
            if_neg (fun h => hdb (of_decide_eq_true h))]
        exact ih hnd.2 hb

theorem chain_reaches_head (ps : List PluginEntry) :
    ∀ (t : List String) (a : String), chainOK ps (a :: t) →
      ∀ x ∈ a :: t, x = a ∨ Relation.TransGen (depEdge ps) x a := by
  intro t
  induction t with
  | nil =>
    intro a _ x hx
    left
    simpa using hx
  | cons b t' ih =>
    intro a hchain x hx
    have hedge : depEdge ps b a := hchain.1
    rcases List.mem_cons.mp hx with hxa | hxt
    · exact Or.inl hxa
    · rcases ih b hchain.2 x hxt with hxb | htrans
      · exact Or.inr (hxb ▸ Relation.TransGen.single hedge)
      · exact Or.inr (htrans.tail hedge)

theorem chain_cycle (ps : List PluginEntry) (v : List String) (name : String)
    (hchain : chainOK ps v) (hlink : linkOK ps name v) (hmem : name ∈ v) :
    Relation.TransGen (depEdge ps) name name := by
  cases v with
  | nil => cases hmem
  | cons a t =>
    have hedge : depEdge ps a name := hlink
    rcases chain_reaches_head ps t a hchain name hmem with h | h
    · exact h ▸ Relation.TransGen.single (h ▸ hedge)
    · exact h.tail hedge

theorem depsBeforeAux_append (ps : List PluginEntry) (e : PluginEntry) :
    ∀ (l : List PluginEntry) (seen : List String),
      depsBeforeAux ps seen l →
      (∀ d ∈ e.dependencies, (byNameGet ps d).isSome = true →
        d ∈ seen ++ l.map (fun p => p.name)) →
      depsBeforeAux ps seen (l ++ [e]) := by
  intro l
  induction l with
  | nil =>
    intro seen _ hdeps
    exact ⟨fun d hd hsome => by simpa using hdeps d hd hsome, trivial⟩
  | cons f t ih =>
    intro seen hbefore hdeps
    exact ⟨hbefore.1, ih (seen ++ [f.name]) hbefore.2
      (fun d hd hsome => by simpa [List.append_assoc] using hdeps d hd hsome)⟩

theorem nocycle_of_depsBefore (ps : List PluginEntry) :
    ∀ (l : List PluginEntry) (seen : List String),
      depsBeforeAux ps seen l →
      (∀ e ∈ l, byNameGet ps e.name = some e) →
      (∀ s ∈ seen, ¬ Relation.TransGen (depEdge ps) s s) →
      ∀ e ∈ l, ¬ Relation.TransGen (depEdge ps) e.name e.name := by
  intro l
  induction l with
  | nil => intro seen _ _ _ e he; cases he
  | cons e0 rest ih =>
    intro seen hbefore hentries hseen
    have hself : ¬ Relation.TransGen (depEdge ps) e0.name e0.name := by
      intro hcyc
      obtain ⟨b, hedge, hrtg⟩ := Relation.TransGen.head'_iff.mp hcyc
      have hbb : Relation.TransGen (depEdge ps) b b := Relation.TransGen.tail' hrtg hedge
      have hbsome : (byNameGet ps b).isSome = true := by
        obtain ⟨c, hbc, _⟩ := Relation.TransGen.head'_iff.mp hbb
        obtain ⟨eb, heb, _⟩ := hbc
        rw [heb]
        rfl
      have hbdep : b ∈ e0.dependencies := by
        obtain ⟨ea, hea, hmem⟩ := hedge
        rw [hentries e0 (by simp)] at hea
        injection hea with hea
        rw [hea]
        exact hmem
      exact hseen b (hbefore.1 b hbdep hbsome) hbb
    intro e he
    rcases List.mem_cons.mp he with he0 | herest
    · rw [he0]
      exact hself
    · exact ih (seen ++ [e0.name]) hbefore.2
        (fun f hf => hentries f (by simp [hf]))
        (fun s hs => by
          rcases List.mem_append.mp hs with h | h
          · exact hseen s h
          · rw [List.mem_singleton.mp h]
            exact hself)
        e herest

theorem foldVisit_spec (ps : List PluginEntry) (fuel : Nat)
    (ihv : ∀ st name, TopoInv ps st → chainOK ps st.visiting → linkOK ps name st.visiting →
      fuelOK ps fuel st →
      (∀ st', visit ps fuel st name = Except.ok st' → VisitOkSpec ps st st' name) ∧
      (∀ e, visit ps fuel st name = Except.error e → VisitErrSpec ps e)) :
    ∀ (ds : List String) (st0 : SortState), TopoInv ps st0 → chainOK ps st0.visiting →
      (∀ d ∈ ds, linkOK ps d st0.visiting) → fuelOK ps fuel st0 →
      (∀ st', ds.foldlM (fun s d => visit ps fuel s d) st0 = Except.ok st' →
        TopoInv ps st' ∧ st'.visiting = st0.visiting ∧
        (∀ v ∈ st0.visited, v ∈ st'.visited) ∧ st0.sorted <+: st'.sorted ∧
        (∀ d ∈ ds, (byNameGet ps d).isSome = true → d ∈ st'.visited)) ∧
      (∀ e, ds.foldlM (fun s d => visit ps fuel s d) st0 = Except.error e →
        VisitErrSpec ps e) := by
  intro ds
  induction ds with
  | nil =>
    intro st0 hinv _ _ _
    have hnil : ([] : List String).foldlM (fun s d => visit ps fuel s d) st0 =
        Except.ok st0 := rfl
    constructor
    · intro st' hok
      rw [hnil] at hok
      injection hok with hok
      subst hok
      exact ⟨hinv, rfl, fun v h => h, List.prefix_refl _, fun d hd => absurd hd (by simp)⟩
    · intro e he
      rw [hnil] at he
      exact absurd he (by simp)
  | cons d ds ihd =>
    intro st0 hinv hchain hlinks hfuel
    have hfold : (d :: ds).foldlM (fun s x => visit ps fuel s x) st0 =
        visit ps fuel st0 d >>= fun s' => ds.foldlM (fun s x => visit ps fuel s x) s' := by
      simp [List.foldlM_cons]
    cases hv : visit ps fuel st0 d with
    | error e0 =>
      have hres : (d :: ds).foldlM (fun s x => visit ps fuel s x) st0 = Except.error e0 := by
        rw [hfold, hv]
        rfl
      constructor
      · intro st' hok
        rw [hres] at hok
        exact absurd hok (by simp)
      · intro e he
        rw [hres] at he
        injection he with he
        subst he
        exact (ihv st0 d hinv hchain (hlinks d (by simp)) hfuel).2 e0 hv
    | ok st1 =>
      obtain ⟨hinv1, hvis1, hmono1, hpre1, hrec1⟩ :=
        (ihv st0 d hinv hchain (hlinks d (by simp)) hfuel).1 st1 hv
      have hchain1 : chainOK ps st1.visiting := by rw [hvis1]; exact hchain
      have hlinks1 : ∀ x ∈ ds, linkOK ps x st1.visiting := by
        rw [hvis1]
        exact fun x hx => hlinks x (by simp [hx])
      have hfuel1 : fuelOK ps fuel st1 := by
        unfold fuelOK at *
        rw [hvis1]
        exact hfuel
      obtain ⟨hok1, herr1⟩ := ihd st1 hinv1 hchain1 hlinks1 hfuel1
      have hres : (d :: ds).foldlM (fun s x => visit ps fuel s x) st0 =
          ds.foldlM (fun s x => visit ps fuel s x) st1 := by
        rw [hfold, hv]
        rfl
      constructor
      · intro st' hok
        rw [hres] at hok
        obtain ⟨hinv', hvis', hmono', hpre', hrec'⟩ := hok1 st' hok
        refine ⟨hinv', hvis'.trans hvis1, fun v hv' => hmono' v (hmono1 v hv'),
          hpre1.trans hpre', ?_⟩
        intro x hx hxsome
        rcases List.mem_cons.mp hx with hxd | hxds
        · subst hxd
          exact hmono' x (hrec1 hxsome)
        · exact hrec' x hxds hxsome
      · intro e he
        rw [hres] at he
        exact herr1 e he

theorem visit_spec (ps : List PluginEntry) :
    ∀ (fuel : Nat) (st : SortState) (name : String),
      TopoInv ps st → chainOK ps st.visiting → linkOK ps name st.visiting →
      fuelOK ps fuel st →
      (∀ st', visit ps fuel st name = Except.ok st' → VisitOkSpec ps st st' name) ∧
      (∀ e, visit ps fuel st name = Except.error e → VisitErrSpec ps e) := by
  intro fuel
  induction fuel with
  | zero =>
    intro st name _ _ _ hfuel
    exact absurd hfuel (Nat.not_lt_zero _)
  | succ fuel ih =>
    intro st name hinv hchain hlink hfuel
    by_cases hvd : name ∈ st.visited
    · have hv : visit ps (fuel + 1) st name = Except.ok st := by
        unfold visit
        rw [if_pos hvd]
      constructor
      · intro st' hok
        rw [hv] at hok
        injection hok with hok
        subst hok
        exact ⟨hinv, rfl, fun v h => h, List.prefix_refl _, fun _ => hvd⟩
      · intro e he
        rw [hv] at he
        exact absurd he (by simp)
    · by_cases hvg : name ∈ st.visiting
      · have hv : visit ps (fuel + 1) st name = Except.error (circularMsg name) := by
          unfold visit
          rw [if_neg hvd, if_pos hvg]
        constructor
        · intro st' hok
          rw [hv] at hok
          exact absurd hok (by simp)
        · intro e he
          rw [hv] at he
          injection he with he
          subst he
          exact ⟨name, rfl, chain_cycle ps st.visiting name hchain hlink hvg⟩
      · cases hbn : byNameGet ps name with
        | none =>
          have hv : visit ps (fuel + 1) st name = Except.ok st := by
            unfold visit
            rw [if_neg hvd, if_neg hvg, hbn]
          constructor
          · intro st' hok
            rw [hv] at hok
            injection hok with hok
            subst hok
            refine ⟨hinv, rfl, fun v h => h, List.prefix_refl _, fun habs => ?_⟩
            rw [hbn] at habs
            simp at habs
          · intro e he
            rw [hv] at he
            exact absurd he (by simp)
        | some entry =>
          have hname : entry ∈ ps ∧ entry.name = name := byNameGet_mem_name ps name entry hbn
          have hinv0 : TopoInv ps { st with visiting := name :: st.visiting } := by
            refine ⟨hinv.visited_eq, hinv.visited_nodup, ?_, hinv.sorted_entries,
              hinv.order_ok, ?_, ?_⟩
            · intro v hvmem
              simp only [List.mem_cons, not_or]
              exact ⟨fun hveq => hvd (hveq ▸ hvmem), hinv.disj v hvmem⟩
            · intro v hvmem
              rcases List.mem_cons.mp hvmem with hveq | hvin
              · rw [hveq, hbn]
                rfl
              · exact hinv.visiting_batch v hvin
            · exact List.nodup_cons.mpr ⟨hvg, hinv.visiting_nodup⟩
          have hchain0 : chainOK ps (name :: st.visiting) := by
            cases hsv : st.visiting with
            | nil => trivial
            | cons v t =>
              rw [hsv] at hlink hchain
              exact ⟨hlink, hchain⟩
          have hlinks0 : ∀ d ∈ entry.dependencies,
              linkOK ps d ({ st with visiting := name :: st.visiting }).visiting :=
            fun d hd => ⟨entry, hbn, hd⟩
          have hfuel0 : fuelOK ps fuel { st with visiting := name :: st.visiting } := by
            have hdec := measure_dec (batchNames ps) st.visiting name
              (List.nodup_dedup _)
              (isSome_mem_batch ps name (by rw [hbn]; rfl)) hvg
            show ((batchNames ps).filter (fun x => decide (x ∉ name :: st.visiting))).length < fuel
            unfold fuelOK at hfuel
            omega
          obtain ⟨hfok, hferr⟩ := foldVisit_spec ps fuel ih entry.dependencies
            { st with visiting := name :: st.visiting } hinv0 hchain0 hlinks0 hfuel0
          have hv1 : visit ps (fuel + 1) st name =
              match entry.dependencies.foldlM (fun s d => visit ps fuel s d)
                  { st with visiting := name :: st.visiting } with
              | Except.error e => Except.error e
              | Except.ok st' =>
                  Except.ok { visited := name :: st'.visited,
                              visiting := st'.visiting.erase name,
                              sorted := st'.sorted ++ [entry] } := by
            conv_lhs => unfold visit
            rw [if_neg hvd, if_neg hvg, hbn]
          cases hfold : entry.dependencies.foldlM (fun s d => visit ps fuel s d)
              { st with visiting := name :: st.visiting } with
          | error e0 =>
            rw [hfold] at hv1
            have hv : visit ps (fuel + 1) st name = Except.error e0 := by rw [hv1]
            constructor
            · intro st' hok
              rw [hv] at hok
              exact absurd hok (by simp)
            · intro e he
              rw [hv] at he
              injection he with he
              subst he
              exact hferr e0 hfold
          | ok st' =>
            obtain ⟨hinv', hvis', hmono', hpre', hrec'⟩ := hfok st' hfold
            rw [hfold] at hv1
            have hv : visit ps (fuel + 1) st name = Except.ok
                { visited := name :: st'.visited,
                  visiting := st'.visiting.erase name,
                  sorted := st'.sorted ++ [entry] } := by rw [hv1]
            have herase : st'.visiting.erase name = st.visiting := by
              rw [hvis']
              exact List.erase_cons_head name st.visiting
            have hnamenotin : name ∉ st'.visited := by
              intro habs
              exact hinv'.disj name habs (by rw [hvis']; simp)
            have hinv2 : TopoInv ps
                { visited := name :: st'.visited,
                  visiting := st'.visiting.erase name,
                  sorted := st'.sorted ++ [entry] } := by
              refine ⟨?_, ?_, ?_, ?_, ?_, ?_, ?_⟩
              · show name :: st'.visited = ((st'.sorted ++ [entry]).map _).reverse
                rw [List.map_append, List.reverse_append]
                simp [hname.2, hinv'.visited_eq]
              · exact List.nodup_cons.mpr ⟨hnamenotin, hinv'.visited_nodup⟩
              · intro v hvmem
                rw [herase]
                rcases List.mem_cons.mp hvmem with hveq | hvin
                · rw [hveq]; exact hvg
                · have := hinv'.disj v hvin
                  rw [hvis'] at this
                  intro habs
                  exact this (by simp [habs])
              · intro e he
                rcases List.mem_append.mp he with he | he
                · exact hinv'.sorted_entries e he
                · rw [List.mem_singleton.mp he, hname.2]
                  exact hbn
              · show depsBeforeAux ps [] (st'.sorted ++ [entry])
                refine depsBeforeAux_append ps entry st'.sorted [] hinv'.order_ok ?_
                intro d hd hdsome
                have hdv : d ∈ st'.visited := hrec' d hd hdsome
                rw [hinv'.visited_eq, List.mem_reverse] at hdv
                simpa using hdv
              · intro v hvmem
                rw [herase] at hvmem
                exact hinv.visiting_batch v hvmem
              · rw [herase]
                exact hinv.visiting_nodup
            constructor
            · intro st'' hok
              rw [hv] at hok
              injection hok with hok
              subst hok
              refine ⟨hinv2, herase, ?_, ?_, fun _ => by simp⟩
              · intro v hvmem
                exact List.mem_cons.mpr (Or.inr (hmono' v hvmem))
              · exact hpre'.trans (List.prefix_append _ _)
            · intro e he
              rw [hv] at he
              exact absurd he (by simp)

/-- C7: with distinct plugin names, `topologicalSort` returns the
discovered plugins in an order placing every plugin after all of its
dependencies present in the batch (dependencies naming no plugin of the
batch are skipped and cause no error, and the result is a permutation of
the batch); on an acyclic batch it succeeds, and if the dependency graph
has a cycle it throws the circular-dependency error naming a plugin that
lies on a cycle, so `loadAll` loads no plugin from the batch. -/
theorem claim_C7_topological_sort (ps : List PluginEntry)
    (hnd : (ps.map (fun p => p.name)).Nodup) :
    (∀ l, topologicalSort ps = Except.ok l → depsBefore ps l ∧ l.Perm ps) ∧
    (¬ HasCycle ps → ∃ l, topologicalSort ps = Except.ok l) ∧
    (HasCycle ps → ∃ x, topologicalSort ps = Except.error (circularMsg x) ∧
       Relation.TransGen (depEdge ps) x x ∧ loadAll ps = Except.error (circularMsg x)) := by
  have hinv0 : TopoInv ps { visited := [], visiting := [], sorted := [] } := by
    refine ⟨rfl, List.nodup_nil, ?_, ?_, trivial, ?_, List.nodup_nil⟩
    · intro v hv
      exact absurd hv (List.not_mem_nil v)
    · intro e he
      exact absurd he (List.not_mem_nil e)
    · intro v hv
      exact absurd hv (List.not_mem_nil v)
  have hfuel0 : fuelOK ps (ps.length + 1) { visited := [], visiting := [], sorted := [] } := by
    show ((batchNames ps).filter (fun x => decide (x ∉ ([] : List String)))).length < ps.length + 1
    have h1 : (batchNames ps).filter (fun x => decide (x ∉ ([] : List String))) = batchNames ps :=
      List.filter_eq_self.mpr (fun a _ => decide_eq_true (by simp))
    have h2 : (batchNames ps).length ≤ (ps.map (fun p => p.name)).length :=
      (List.dedup_sublist _).length_le
    rw [h1, List.length_map] at *
    omega
  obtain ⟨hok, herr⟩ := foldVisit_spec ps (ps.length + 1) (visit_spec ps (ps.length + 1))
    (ps.map (fun p => p.name)) { visited := [], visiting := [], sorted := [] }
    hinv0 trivial (fun d _ => trivial) hfuel0
  cases hfold : (ps.map (fun p => p.name)).foldlM
      (fun st n => visit ps (ps.length + 1) st n)
      { visited := [], visiting := [], sorted := [] } with
  | ok stf =>
    obtain ⟨hinvf, _, _, _, hallf⟩ := hok stf hfold
    have htop : topologicalSort ps = Except.ok stf.sorted := by
      unfold topologicalSort
      rw [hfold]
    have hsub2 : ps ⊆ stf.sorted := by
      intro p hp
      have hsome : (byNameGet ps p.name).isSome = true := by
        rw [byNameGet_self ps hnd p hp]
        rfl
      have hv : p.name ∈ stf.visited :=
        hallf p.name (List.mem_map_of_mem _ hp) hsome
      rw [hinvf.visited_eq, List.mem_reverse, List.mem_map] at hv
      obtain ⟨e, hemem, hename⟩ := hv
      have heq : e = p := by
        have h1 := hinvf.sorted_entries e hemem
        have h2 := byNameGet_self ps hnd p hp
        rw [hename] at h1
        rw [h1] at h2
        injection h2
      rw [← heq]
      exact hemem
    refine ⟨?_, fun _ => ⟨stf.sorted, htop⟩, ?_⟩
    · intro l hl
      rw [htop] at hl
      injection hl with hl
      subst hl
      refine ⟨hinvf.order_ok, ?_⟩
      have hnodupmap : (stf.sorted.map (fun e => e.name)).Nodup := by
        have := hinvf.visited_nodup
        rw [hinvf.visited_eq, List.nodup_reverse] at this
        exact this
      have hsnd : stf.sorted.Nodup := hnodupmap.of_map _
      have hpsnd : ps.Nodup := hnd.of_map _
      have hsub1 : stf.sorted ⊆ ps := fun e he =>
        (byNameGet_mem_name ps e.name e (hinvf.sorted_entries e he)).1
      exact (List.subperm_of_subset hsnd hsub1).antisymm
        (List.subperm_of_subset hpsnd hsub2)
    · intro hcyc
      exfalso
      obtain ⟨n, hn⟩ := hcyc
      obtain ⟨b, hedge, _⟩ := Relation.TransGen.head'_iff.mp hn
      obtain ⟨en, hget, _⟩ := hedge
      obtain ⟨henmem, henname⟩ := byNameGet_mem_name ps n en hget
      have hnc := nocycle_of_depsBefore ps stf.sorted [] hinvf.order_ok
        hinvf.sorted_entries (fun s hs => absurd hs (List.not_mem_nil s))
        en (hsub2 henmem)
      rw [henname] at hnc
      exact hnc hn
  | error e =>
    obtain ⟨x, hex, hcycx⟩ := herr e hfold
    have htop : topologicalSort ps = Except.error e := by
      unfold topologicalSort
      rw [hfold]
    refine ⟨?_, ?_, ?_⟩
    · intro l hl
      rw [htop] at hl
      exact absurd hl (by simp)
    · intro hnocyc
      exact absurd ⟨x, hcycx⟩ hnocyc
    · intro _
      refine ⟨x, by rw [htop, hex], hcycx, ?_⟩
      unfold loadAll
      rw [htop, hex]

/-- Witness for C7: a two-plugin batch where `b` depends on `a` and `a`
has only an external dependency sorts to `[a, b]`, after every in-batch
dependency and skipping the external one. -/
theorem claim_C7_witness :
    depsBefore
      [{ name := "b", dependencies := ["a"] }, { name := "a", dependencies := ["ext"] }]
      [{ name := "a", dependencies := ["ext"] }, { name := "b", dependencies := ["a"] }] ∧
    ([{ name := "a", dependencies := ["ext"] }, { name := "b", dependencies := ["a"] }] :
        List PluginEntry).Perm
      [{ name := "b", dependencies := ["a"] }, { name := "a", dependencies := ["ext"] }] := by
  have h := (claim_C7_topological_sort
    [{ name := "b", dependencies := ["a"] }, { name := "a", dependencies := ["ext"] }]
    (by decide)).1
    [{ name := "a", dependencies := ["ext"] }, { name := "b", dependencies := ["a"] }]
    (by rfl)
  exact h
